import Mathlib

/-!
Verification of the preemption action of the volcano scheduler
(`pkg/scheduler/actions/preempt/preempt.go`) against its design
specification.  The Go control flow of `preemptAction.Execute`,
`preempt` and `validateVictims` is embedded as executable Lean
functions over an explicit scheduler state.  Collaborating
components that live outside the embedded file (resource vectors,
the generic priority queue, the transactional statement, the node
candidate pipeline) are modelled from the specification, as noted
on each definition.
-/

namespace Volcano

/-- Modelled from the spec: a Resource Vector is a multi-dimensional
non-negative quantity; arithmetic and comparison are pairwise over the
union of the dimensions of the two operands, absent dimensions reading
as zero.  Dimensions are indexed positionally; a shorter list simply has
zero in all further dimensions. -/
abbrev Resource := List Nat

/-- Modelled from the spec: pairwise addition over the union of dimensions. -/
def Resource.add : Resource → Resource → Resource
  | [], ys => ys
  | x :: xs, [] => x :: xs
  | x :: xs, y :: ys => (x + y) :: Resource.add xs ys

/-- Modelled from the spec: pairwise truncated subtraction; the defensive
implementation clamps each dimension at zero on underflow. -/
def Resource.sub : Resource → Resource → Resource
  | xs, [] => xs
  | [], _ :: ys => 0 :: Resource.sub [] ys
  | x :: xs, y :: ys => (x - y) :: Resource.sub xs ys

/-- Modelled from the spec: `LessEqual a b` holds iff every dimension of
`a` is at most the corresponding dimension of `b`, absent reading zero. -/
def Resource.lessEqual : Resource → Resource → Bool
  | [], _ => true
  | x :: xs, [] => decide (x = 0) && Resource.lessEqual xs []
  | x :: xs, y :: ys => decide (x ≤ y) && Resource.lessEqual xs ys

/-- Task status values from the scheduler api used by the preempt action. -/
inductive TaskStatus
  | Pending
  | Running
  | Bound
  | Evicted
  | Releasing
  | Pipelined
deriving DecidableEq, Repr

/-- A task of the cluster snapshot: identity, owning job, current node,
status and requested resources (`Resreq` and `InitResreq`). -/
structure TaskInfo where
  uid : Nat
  job : Nat
  node : Nat
  status : TaskStatus
  resreq : Resource
  initResreq : Resource
deriving DecidableEq, Repr

/-- A job of the cluster snapshot: identity, owning queue, whether its pod
group is still in the Pending phase, and its Pending-status task partition
(`TaskStatusIndex[Pending]`). -/
structure JobInfo where
  uid : Nat
  queue : Nat
  phasePending : Bool
  pendingTasks : List TaskInfo
deriving DecidableEq, Repr

/-- A node of the cluster snapshot: name, currently placed tasks and the
future-idle resource projection.  Modelled from the spec: future-idle is
kept directly and is mutated by Evict (credit) and Pipeline (debit);
Discard restores it via the snapshot taken when the Statement opened. -/
structure NodeInfo where
  name : Nat
  tasks : List TaskInfo
  futureIdle : Resource
deriving DecidableEq, Repr

/-- An operation logged by a transactional Statement. -/
inductive Op
  | evict (taskUid : Nat) (nodeName : Nat) (reason : String)
  | pipeline (taskUid : Nat) (nodeName : Nat)
deriving DecidableEq, Repr

/-- The mutable cluster state seen by one scheduling cycle: the nodes and
the log of operations applied so far (newest first). -/
structure SchedState where
  nodes : List NodeInfo
  ops : List Op
deriving DecidableEq, Repr

/-- Look up a key in an association list (first occurrence wins, like a
Go map that never holds duplicate keys). -/
def lookupAssoc {β : Type} : List (Nat × β) → Nat → Option β
  | [], _ => none
  | (k', v) :: rest, k => if k' = k then some v else lookupAssoc rest k

/-- Replace the value at a key in an association list, appending the
binding when the key is absent. -/
def setAssoc {β : Type} : List (Nat × β) → Nat → β → List (Nat × β)
  | [], k, v => [(k, v)]
  | (k', v') :: rest, k, v =>
    if k' = k then (k, v) :: rest else (k', v') :: setAssoc rest k v

/-- Push an element onto the list stored at a key, creating the binding
when the key is absent. -/
def pushAssoc {β : Type} : List (Nat × List β) → Nat → β → List (Nat × List β)
  | [], k, x => [(k, [x])]
  | (k', l) :: rest, k, x =>
    if k' = k then (k', x :: l) :: rest else (k', l) :: pushAssoc rest k x

/-- Modelled from the spec: `Pop` of the Ordered Candidate Queue removes
and returns the highest-priority element per the injected strictly-before
comparator.  The queue itself is modelled as the list of its elements. -/
def pqPop {α : Type} (cmp : α → α → Bool) : List α → Option (α × List α)
  | [] => none
  | x :: xs =>
    match pqPop cmp xs with
    | none => some (x, [])
    | some (m, rest) => if cmp m x then some (m, x :: rest) else some (x, xs)

/-- The extension-point Session: the per-cycle snapshot of jobs and queues
together with the pluggable policy callbacks the action consumes.  The
`jobPipelined` oracle reads the current scheduler state so that it can see
placements logged by the open Statement. -/
structure Session where
  jobs : List JobInfo
  queues : List Nat
  jobOrderFn : JobInfo → JobInfo → Bool
  taskOrderFn : TaskInfo → TaskInfo → Bool
  jobValid : JobInfo → Bool
  jobPipelined : Nat → SchedState → Bool
  predicateFn : TaskInfo → NodeInfo → Bool
  nodeScoreFn : TaskInfo → NodeInfo → Int
  preemptable : TaskInfo → List TaskInfo → List TaskInfo

/-- Look up a job by id in the session snapshot (`ssn.Jobs[taskJob]`). -/
def findJob (ssn : Session) (jobId : Nat) : Option JobInfo :=
  ssn.jobs.find? (fun j => decide (j.uid = jobId))

/-- Look up a node by name in the current state. -/
def findNode (st : SchedState) (name : Nat) : Option NodeInfo :=
  st.nodes.find? (fun n => decide (n.name = name))

/-- Apply a function to the node with the given name, leaving the other
nodes unchanged. -/
def updateNodes (name : Nat) (f : NodeInfo → NodeInfo) (ns : List NodeInfo) : List NodeInfo :=
  ns.map (fun n => if n.name = name then f n else n)

/-- Modelled from the spec: `Statement.Evict` logs the removal of the task
from its node and immediately credits the node's future-idle projection
with the task's requested resources; it fails when the task is not
currently placed on its node. -/
def SchedState.evict (st : SchedState) (task : TaskInfo) (reason : String) : Option SchedState :=
  match findNode st task.node with
  | none => none
  | some node =>
    if node.tasks.any (fun t => decide (t.uid = task.uid)) then
      some { nodes := updateNodes task.node
               (fun n => { n with
                 tasks := n.tasks.filter (fun t => decide (t.uid ≠ task.uid)),
                 futureIdle := n.futureIdle.add task.resreq }) st.nodes,
             ops := Op.evict task.uid task.node reason :: st.ops }
    else none

/-- Modelled from the spec: `Statement.Pipeline` logs a speculative
placement of the task on the node and immediately debits the node's
future-idle projection; it fails defensively when the projected capacity
is insufficient. -/
def SchedState.pipeline (st : SchedState) (task : TaskInfo) (nodeName : Nat) : Option SchedState :=
  match findNode st nodeName with
  | none => none
  | some node =>
    if task.initResreq.lessEqual node.futureIdle then
      some { nodes := updateNodes nodeName
               (fun n => { n with futureIdle := n.futureIdle.sub task.initResreq }) st.nodes,
             ops := Op.pipeline task.uid nodeName :: st.ops }
    else none

/-- How a Statement is closed. -/
inductive StmtEnd
  | commit
  | discard
deriving DecidableEq, Repr

/-- Modelled from the spec: `Commit` keeps the current state, `Discard`
restores the snapshot taken when the Statement was opened (copy-on-write
strategy sanctioned by the design notes). -/
def closeStmt : StmtEnd → SchedState → SchedState → SchedState
  | StmtEnd.commit, _, current => current
  | StmtEnd.discard, saved, _ => saved

/-- `validateVictims` from preempt.go: error when the victim set is empty
or when the preemptor's request is not less-or-equal to the node's
future-idle after hypothetically adding back every victim's resources. -/
def validateVictims (preemptor : TaskInfo) (node : NodeInfo) (victims : List TaskInfo) : Option String :=
  if victims.length = 0 then some "no victims"
  else
    let futureIdle := victims.foldl (fun acc v => acc.add v.resreq) node.futureIdle
    if preemptor.initResreq.lessEqual futureIdle then none
    else some "not enough resources"

/-- The victims-queue comparator from preempt.go: the pointwise Boolean
negation of the injected task-order comparator. -/
def invTaskOrder {α : Type} (cmp : α → α → Bool) (l r : α) : Bool :=
  !(cmp l r)

/-- The cross-job victim filter of Phase 1: the task must be Running, its
job must exist in the session, be in the preemptor job's queue, and differ
from the preemptor's own job. -/
def crossJobFilter (ssn : Session) (preemptorJob : JobInfo) (preemptor : TaskInfo)
    (task : TaskInfo) : Bool :=
  if task.status ≠ TaskStatus.Running then false
  else
    match findJob ssn task.job with
    | none => false
    | some job => decide (job.queue = preemptorJob.queue) && decide (preemptor.job ≠ task.job)

/-- The intra-job victim filter of Phase 2: the task must be Running and
belong to the preemptor's own job. -/
def intraJobFilter (preemptor task : TaskInfo) : Bool :=
  decide (task.status = TaskStatus.Running) && decide (preemptor.job = task.job)

/-- Insert an element into a list sorted by the given before-or-equal
comparator, keeping earlier equal elements first. -/
def insertRanked {α : Type} (le : α → α → Bool) (x : α) : List α → List α
  | [] => [x]
  | y :: ys => if le x y then x :: y :: ys else y :: insertRanked le x ys

/-- Stable sort by the given before-or-equal comparator. -/
def sortRanked {α : Type} (le : α → α → Bool) (l : List α) : List α :=
  l.foldr (insertRanked le) []

/-- Modelled from the spec: the Node Candidate Pipeline — feasibility
filter by the pluggable predicate, scoring by the pluggable scoring
callback, then a stable sort by descending score with node name as
deterministic tie-break.  Returns the ranked node names. -/
def rankNodes (ssn : Session) (st : SchedState) (preemptor : TaskInfo) : List Nat :=
  let feasible := st.nodes.filter (fun n => ssn.predicateFn preemptor n)
  let ranked := sortRanked (fun a b =>
    decide (ssn.nodeScoreFn preemptor b < ssn.nodeScoreFn preemptor a) ||
      (decide (ssn.nodeScoreFn preemptor a = ssn.nodeScoreFn preemptor b) &&
        decide (a.name ≤ b.name))) feasible
  ranked.map (fun n => n.name)

/-- The eviction loop of `preempt`: while the victims queue is non-empty,
stop as soon as the preemptor's request is less-or-equal to the node's
current future-idle projection, otherwise pop the lowest-priority victim
(inverse task order) and evict it, skipping victims whose eviction fails. -/
def evictLoop (ssn : Session) (preemptor : TaskInfo) (nodeName : Nat) :
    Nat → List TaskInfo → SchedState → SchedState
  | 0, _, st => st
  | fuel + 1, queue, st =>
    if queue.isEmpty then st
    else
      match findNode st nodeName with
      | none => st
      | some node =>
        if preemptor.initResreq.lessEqual node.futureIdle then st
        else
          match pqPop (invTaskOrder ssn.taskOrderFn) queue with
          | none => st
          | some (victim, rest) =>
            match st.evict victim "preempt" with
            | some st' => evictLoop ssn preemptor nodeName fuel rest st'
            | none => evictLoop ssn preemptor nodeName fuel rest st

/-- One node attempt of `preempt`: collect the running tasks accepted by
the victim filter, apply the pluggable victim-selection policy, validate,
run the eviction loop, and on sufficiency log a Pipeline placement of the
preemptor (a pipeline error is ignored and the attempt still succeeds). -/
def attemptNode (ssn : Session) (preemptor : TaskInfo) (filt : TaskInfo → Bool)
    (name : Nat) (st : SchedState) : Bool × SchedState :=
  match findNode st name with
  | none => (false, st)
  | some node =>
    let preemptees := node.tasks.filter filt
    let victims := ssn.preemptable preemptor preemptees
    match validateVictims preemptor node victims with
    | some _ => (false, st)
    | none =>
      let st₁ := evictLoop ssn preemptor name victims.length victims st
      match findNode st₁ name with
      | none => (false, st₁)
      | some node₁ =>
        if preemptor.initResreq.lessEqual node₁.futureIdle then
          match st₁.pipeline preemptor name with
          | some st₂ => (true, st₂)
          | none => (true, st₁)
        else (false, st₁)

/-- The result of a `preempt` call: whether a node was found, the
resulting state, and the node names attempted in order. -/
structure PreemptResult where
  assigned : Bool
  state : SchedState
  visited : List Nat
deriving Repr

/-- The node loop of `preempt`: visit the ranked nodes in order and stop
at the first successful attempt. -/
def tryNodes (ssn : Session) (preemptor : TaskInfo) (filt : TaskInfo → Bool) :
    List Nat → SchedState → PreemptResult
  | [], st => ⟨false, st, []⟩
  | name :: rest, st =>
    let a := attemptNode ssn preemptor filt name st
    if a.1 then ⟨true, a.2, [name]⟩
    else
      let r := tryNodes ssn preemptor filt rest a.2
      ⟨r.assigned, r.state, name :: r.visited⟩

/-- The `preempt` function of preempt.go: drive the node candidate
pipeline for the preemptor and try the ranked nodes in order. -/
def preempt (ssn : Session) (preemptor : TaskInfo) (filt : TaskInfo → Bool)
    (st : SchedState) : PreemptResult :=
  tryNodes ssn preemptor filt (rankNodes ssn st preemptor) st

/-- The candidate collection of `Execute` (Phase 0): the per-queue job
queues, the per-job pending-task queues, the `underRequest` list and the
queues touched. -/
structure CollectResult where
  preemptorsMap : List (Nat × List JobInfo)
  preemptorTasks : List (Nat × List TaskInfo)
  underRequest : List JobInfo
  queueIds : List Nat
deriving Repr

/-- Phase 0 of `Execute`: skip jobs whose pod group is Pending, jobs that
fail the validity gate and jobs whose queue does not exist; record each
touched queue once; a job with pending tasks that is not yet pipelined is
a preemptor: it is pushed onto its queue's job queue, appended to
`underRequest`, and its pending tasks become its task queue. -/
def collect (ssn : Session) (st : SchedState) : CollectResult :=
  ssn.jobs.foldl (fun acc job =>
    if job.phasePending then acc
    else if !ssn.jobValid job then acc
    else if !(ssn.queues.contains job.queue) then acc
    else
      let acc :=
        if acc.queueIds.contains job.queue then acc
        else { acc with queueIds := acc.queueIds ++ [job.queue] }
      if !job.pendingTasks.isEmpty && !(ssn.jobPipelined job.uid st) then
        { acc with
          preemptorsMap := pushAssoc acc.preemptorsMap job.queue job,
          underRequest := acc.underRequest ++ [job],
          preemptorTasks := setAssoc acc.preemptorTasks job.uid job.pendingTasks }
      else acc)
    ⟨[], [], [], []⟩

/-- The mutable companions of the scheduler state during `Execute`: the
per-job task queues, the cluster state, and (instrumentation) the list of
preemptor tasks popped so far, newest first.  The task queues and the
popped list live outside any Statement snapshot, so a Discard does not
restore them. -/
structure LoopState where
  tasks : List (Nat × List TaskInfo)
  state : SchedState
  popped : List TaskInfo
deriving Repr

/-- The inner per-task loop of Phase 1 for one popped preemptor job:
stop once the job is pipelined or its task queue is exhausted; otherwise
pop the highest-priority pending task and run `preempt` with the
cross-job victim filter, accumulating the `assigned` flag. -/
def phase1Inner (ssn : Session) (preemptorJob : JobInfo) :
    Nat → Bool → LoopState → Bool × LoopState
  | 0, assigned, ls => (assigned, ls)
  | fuel + 1, assigned, ls =>
    if ssn.jobPipelined preemptorJob.uid ls.state then (assigned, ls)
    else
      match lookupAssoc ls.tasks preemptorJob.uid with
      | none => (assigned, ls)
      | some q =>
        if q.isEmpty then (assigned, ls)
        else
          match pqPop ssn.taskOrderFn q with
          | none => (assigned, ls)
          | some (preemptor, rest) =>
            let tasks' := setAssoc ls.tasks preemptorJob.uid rest
            let r := preempt ssn preemptor (crossJobFilter ssn preemptorJob preemptor) ls.state
            phase1Inner ssn preemptorJob fuel (assigned || r.assigned)
              ⟨tasks', r.state, preemptor :: ls.popped⟩

/-- One iteration of the Phase 1 job loop after a preemptor job has been
popped: open a Statement (snapshot the state), run the inner per-task
loop, commit when the job is pipelined (pushing it back when a preempt
attempt succeeded) and discard otherwise (the job is not pushed back). -/
def phase1Step (ssn : Session) (innerFuel : Nat) (preemptorJob : JobInfo)
    (restQ : List JobInfo) (ls : LoopState) : List JobInfo × LoopState :=
  let saved := ls.state
  let r := phase1Inner ssn preemptorJob innerFuel false ls
  if ssn.jobPipelined preemptorJob.uid r.2.state then
    ((if r.1 then preemptorJob :: restQ else restQ),
      { r.2 with state := closeStmt StmtEnd.commit saved r.2.state })
  else
    (restQ, { r.2 with state := closeStmt StmtEnd.discard saved r.2.state })

/-- The Phase 1 job loop for one queue: pop the highest-priority
preemptor job and process it with `phase1Step` until the job queue is
empty. -/
def phase1 (ssn : Session) (innerFuel : Nat) :
    Nat → List JobInfo → LoopState → List JobInfo × LoopState
  | 0, jobQ, ls => (jobQ, ls)
  | fuel + 1, jobQ, ls =>
    if jobQ.isEmpty then (jobQ, ls)
    else
      match pqPop ssn.jobOrderFn jobQ with
      | none => (jobQ, ls)
      | some (preemptorJob, restQ) =>
        let s := phase1Step ssn innerFuel preemptorJob restQ ls
        phase1 ssn innerFuel fuel s.1 s.2

/-- The per-job loop of Phase 2: while the job's task queue exists and is
non-empty, pop the highest-priority pending task, open a Statement, run
`preempt` with the intra-job victim filter, commit unconditionally, and
stop as soon as an attempt fails. -/
def phase2Job (ssn : Session) (job : JobInfo) : Nat → LoopState → LoopState
  | 0, ls => ls
  | fuel + 1, ls =>
    match lookupAssoc ls.tasks job.uid with
    | none => ls
    | some q =>
      if q.isEmpty then ls
      else
        match pqPop ssn.taskOrderFn q with
        | none => ls
        | some (preemptor, rest) =>
          let tasks' := setAssoc ls.tasks job.uid rest
          let saved := ls.state
          let r := preempt ssn preemptor (intraJobFilter preemptor) ls.state
          let st' := closeStmt StmtEnd.commit saved r.state
          if r.assigned then
            phase2Job ssn job fuel ⟨tasks', st', preemptor :: ls.popped⟩
          else ⟨tasks', st', preemptor :: ls.popped⟩

/-- Phase 2: iterate every job originally collected as under request. -/
def phase2 (ssn : Session) (fuel : Nat) (underRequest : List JobInfo)
    (ls : LoopState) : LoopState :=
  underRequest.foldl (fun acc job => phase2Job ssn job fuel acc) ls

/-- The per-queue body of `Execute`: run Phase 1 on the queue's job
queue, then Phase 2 over all under-request jobs, for each touched queue
in turn. -/
def executeQueues (ssn : Session) (fuel : Nat) (underRequest : List JobInfo) :
    List Nat → List (Nat × List JobInfo) → LoopState → LoopState
  | [], _, ls => ls
  | q :: qs, pmap, ls =>
    let jobQ := (lookupAssoc pmap q).getD []
    let p := phase1 ssn fuel fuel jobQ ls
    let ls₂ := phase2 ssn fuel underRequest p.2
    executeQueues ssn fuel underRequest qs (setAssoc pmap q p.1) ls₂

/-- `preemptAction.Execute`: collect the preemptor candidates, then run
cross-job preemption (Phase 1) and intra-job preemption (Phase 2) per
touched queue. -/
def executeAction (ssn : Session) (fuel : Nat) (st : SchedState) : LoopState :=
  let c := collect ssn st
  executeQueues ssn fuel c.underRequest c.queueIds c.preemptorsMap
    ⟨c.preemptorTasks, st, []⟩

/-- A session with fixed, deterministic policy callbacks, used to
evaluate the algorithm on concrete snapshots. -/
def dummySession (jobs : List JobInfo) (queues : List Nat) : Session where
  jobs := jobs
  queues := queues
  jobOrderFn := fun l r => decide (l.uid < r.uid)
  taskOrderFn := fun l r => decide (l.uid < r.uid)
  jobValid := fun _ => true
  jobPipelined := fun _ _ => false
  predicateFn := fun _ _ => true
  nodeScoreFn := fun _ _ => 0
  preemptable := fun _ preemptees => preemptees

/-- Recognizer for eviction operations in a Statement log. -/
def isEvictOp : Op → Bool
  | Op.evict _ _ _ => true
  | Op.pipeline _ _ => false

end Volcano

namespace Volcano

/-- C5: the cross-job victim filter accepts a task iff it is Running, its
job exists in the session, that job's queue equals the preemptor job's
queue, and the task's job differs from the preemptor's job; the intra-job
victim filter accepts a task iff it is Running and shares the preemptor's
job. -/
theorem victim_filters_correct (ssn : Session) (pj : JobInfo) (p t : TaskInfo) :
    (crossJobFilter ssn pj p t = true ↔
      t.status = TaskStatus.Running ∧
        ∃ job, findJob ssn t.job = some job ∧
          job.queue = pj.queue ∧ p.job ≠ t.job) ∧
    (intraJobFilter p t = true ↔
      t.status = TaskStatus.Running ∧ p.job = t.job) := by
  constructor
  · by_cases hst : t.status = TaskStatus.Running
    · cases hj : findJob ssn t.job with
      | none => simp [crossJobFilter, hst, hj]
      | some job => simp [crossJobFilter, hst, hj, and_assoc]
    · simp [crossJobFilter, hst]
  · simp [intraJobFilter, and_comm]

/-- C3: `validateVictims` returns an error iff the victim set is empty or
the preemptor's request is not less-or-equal to the node's future-idle
after adding back every victim's resources; on an error the node attempt
performs no eviction, is not assigned, and the node loop proceeds to the
remaining ranked nodes. -/
theorem validateVictims_spec (p : TaskInfo) (node : NodeInfo)
    (victims : List TaskInfo) (ssn : Session) (filt : TaskInfo → Bool)
    (name : Nat) (st : SchedState) (rest : List Nat) :
    (validateVictims p node victims ≠ none ↔
      victims = [] ∨
        p.initResreq.lessEqual
          (victims.foldl (fun acc v => acc.add v.resreq) node.futureIdle) = false) ∧
    (findNode st name = some node →
      validateVictims p node (ssn.preemptable p (node.tasks.filter filt)) ≠ none →
      attemptNode ssn p filt name st = (false, st) ∧
        tryNodes ssn p filt (name :: rest) st =
          ⟨(tryNodes ssn p filt rest st).assigned,
            (tryNodes ssn p filt rest st).state,
            name :: (tryNodes ssn p filt rest st).visited⟩) := by
  constructor
  · unfold validateVictims
    by_cases hlen : victims.length = 0
    · simp [hlen, List.length_eq_zero.mp hlen]
    · have hne : victims ≠ [] := by
        intro h; exact hlen (by simp [h])
      by_cases hle : p.initResreq.lessEqual
          (victims.foldl (fun acc v => acc.add v.resreq) node.futureIdle) = true
      · simp [hlen, hle, hne]
      · simp only [Bool.not_eq_true] at hle
        simp [hlen, hle, hne]
  · intro hn hv
    obtain ⟨e, he⟩ := Option.ne_none_iff_exists'.mp hv
    have hA : attemptNode ssn p filt name st = (false, st) := by
      unfold attemptNode
      rw [hn]
      simp only [he]
    refine ⟨hA, ?_⟩
    have ht : tryNodes ssn p filt (name :: rest) st =
        (if (attemptNode ssn p filt name st).1 then
          ⟨true, (attemptNode ssn p filt name st).2, [name]⟩
        else
          ⟨(tryNodes ssn p filt rest (attemptNode ssn p filt name st).2).assigned,
            (tryNodes ssn p filt rest (attemptNode ssn p filt name st).2).state,
            name :: (tryNodes ssn p filt rest
              (attemptNode ssn p filt name st).2).visited⟩) := rfl
    rw [ht, hA]
    simp

/-- C9: when the ranked candidate node sequence for the preemptor is
empty, `preempt` returns failure having visited no node and leaves the
whole scheduler state — nodes, future-idle projections and operation log —
unchanged. -/
theorem preempt_empty_ranked (ssn : Session) (p : TaskInfo)
    (filt : TaskInfo → Bool) (st : SchedState)
    (h : rankNodes ssn st p = []) :
    preempt ssn p filt st = ⟨false, st, []⟩ := by
  unfold preempt
  rw [h]
  rfl

/-- C2: within one node attempt, whenever the preemptor's requested
resources are less-or-equal to the node's current future-idle projection
the eviction loop stops immediately with the state unchanged (this holds
at every intermediate state of the victims queue, so no further Evict is
ever issued once the condition holds); and while the condition fails and
the queue is non-empty, the loop pops exactly one victim and attempts to
evict it before continuing. -/
theorem evictLoop_minimal_eviction (ssn : Session) (p : TaskInfo) (name : Nat) :
    (∀ fuel q st node, findNode st name = some node →
      p.initResreq.lessEqual node.futureIdle = true →
      evictLoop ssn p name fuel q st = st) ∧
    (∀ fuel q st node v rest, findNode st name = some node →
      p.initResreq.lessEqual node.futureIdle = false →
      pqPop (invTaskOrder ssn.taskOrderFn) q = some (v, rest) →
      (∀ st', st.evict v "preempt" = some st' →
        evictLoop ssn p name (fuel + 1) q st = evictLoop ssn p name fuel rest st') ∧
      (st.evict v "preempt" = none →
        evictLoop ssn p name (fuel + 1) q st = evictLoop ssn p name fuel rest st)) := by
  constructor
  · intro fuel q st node hn hle
    cases fuel with
    | zero => rfl
    | succ m =>
      unfold evictLoop
      rw [hn]
      simp [hle]
  · intro fuel q st node v rest hn hle hpop
    have hq : q.isEmpty = false := by
      cases q with
      | nil => simp [pqPop] at hpop
      | cons a l => rfl
    constructor
    · intro st' hev
      conv_lhs => unfold evictLoop
      rw [hq, hn]
      simp [hle, hpop, hev]
    · intro hev
      conv_lhs => unfold evictLoop
      rw [hq, hn]
      simp [hle, hpop, hev]

/-- A pending preemptor task requesting one unit of one resource. -/
def taskP : TaskInfo := ⟨1, 1, 0, TaskStatus.Pending, [1], [1]⟩

/-- A node with no tasks and one idle resource unit, insufficient for
nothing in particular but empty of victims. -/
def nodeEmptyTasks : NodeInfo := ⟨5, [], [0]⟩

/-- A state holding only `nodeEmptyTasks`. -/
def stEmptyTasks : SchedState := ⟨[nodeEmptyTasks], []⟩

/-- C3 witness: on a node with no running tasks the victim set is empty,
`validateVictims` errors, and the node attempt fails with the state
unchanged. -/
theorem validateVictims_spec_witness :
    attemptNode (dummySession [] []) taskP (fun _ => true) 5 stEmptyTasks =
      (false, stEmptyTasks) :=
  ((validateVictims_spec taskP nodeEmptyTasks [] (dummySession [] [])
    (fun _ => true) 5 stEmptyTasks []).2 (by decide) (by decide)).1

/-- A session whose feasibility predicate rejects every node. -/
def ssnNoFeasible : Session :=
  { dummySession [] [] with predicateFn := fun _ _ => false }

/-- A state with one node, two idle units, no tasks. -/
def stOneNode : SchedState := ⟨[⟨5, [], [2]⟩], []⟩

/-- C9 witness: with every node filtered out the ranked sequence is empty
and `preempt` is a failing no-op. -/
theorem preempt_empty_ranked_witness :
    preempt ssnNoFeasible taskP (fun _ => true) stOneNode =
      ⟨false, stOneNode, []⟩ :=
  preempt_empty_ranked ssnNoFeasible taskP (fun _ => true) stOneNode (by decide)

/-- A running task occupying one resource unit on node 5. -/
def taskV : TaskInfo := ⟨2, 2, 5, TaskStatus.Running, [1], [1]⟩

/-- C2 witness: when the preemptor's request is already within the node's
future-idle projection the eviction loop leaves the state untouched. -/
theorem evictLoop_minimal_eviction_witness :
    evictLoop (dummySession [] []) taskP 5 3 [taskV] stOneNode = stOneNode :=
  (evictLoop_minimal_eviction (dummySession [] []) taskP 5).1 3 [taskV]
    stOneNode ⟨5, [], [2]⟩ (by decide) (by decide)

/-- Irreflexivity of a Boolean strictly-before comparator. -/
def IrreflB {α : Type} (cmp : α → α → Bool) : Prop :=
  ∀ a, cmp a a = false

/-- Transitivity of a Boolean strictly-before comparator. -/
def TransB {α : Type} (cmp : α → α → Bool) : Prop :=
  ∀ a b c, cmp a b = true → cmp b c = true → cmp a c = true

/-- Cotransitivity of a Boolean strictly-before comparator: the third
property of a strict weak ordering (transitivity of incomparability). -/
def CotransB {α : Type} (cmp : α → α → Bool) : Prop :=
  ∀ a b c, cmp a c = true → cmp a b = true ∨ cmp b c = true

/-- The natural strict order as a Boolean comparator; a strict weak
ordering, used to instantiate the injected task-order comparator. -/
def natLtB (a b : Nat) : Bool := decide (a < b)

theorem natLtB_irrefl : IrreflB natLtB := by
  intro a; simp [natLtB]

theorem natLtB_trans : TransB natLtB := by
  intro a b c hab hbc
  simp only [natLtB, decide_eq_true_eq] at *
  omega

theorem natLtB_cotrans : CotransB natLtB := by
  intro a b c hac
  simp only [natLtB, decide_eq_true_eq] at *
  omega

/-- C4 counterexample: `natLtB` is a strict weak ordering (irreflexive,
transitive, cotransitive), yet the victims-queue comparator built from it
compares an element strictly before itself, so it is not irreflexive and
hence not a strict weak ordering. -/
theorem victimsQueue_cmp_not_swo :
    IrreflB natLtB ∧ TransB natLtB ∧ CotransB natLtB ∧
      invTaskOrder natLtB 0 0 = true :=
  ⟨natLtB_irrefl, natLtB_trans, natLtB_cotrans, by decide⟩

/-- C4 amended: the victims-queue comparator is the Boolean complement of
the task-order comparator, not its converse; for a task order that is a
strict weak ordering the complement is reflexive, transitive and total —
a total preorder — rather than an irreflexive strict weak ordering. -/
theorem victimsQueue_cmp_total_preorder {α : Type} (cmp : α → α → Bool)
    (hirr : IrreflB cmp) (htr : TransB cmp) (hcot : CotransB cmp) :
    (∀ a, invTaskOrder cmp a a = true) ∧
    TransB (invTaskOrder cmp) ∧
    (∀ a b, invTaskOrder cmp a b = true ∨ invTaskOrder cmp b a = true) := by
  refine ⟨?_, ?_, ?_⟩
  · intro a
    simp [invTaskOrder, hirr a]
  · intro a b c hab hbc
    simp only [invTaskOrder, Bool.not_eq_true', Bool.not_eq_false] at *
    by_contra hac
    simp only [Bool.not_eq_false] at hac
    rcases hcot a b c hac with h | h
    · rw [hab] at h; exact absurd h (by simp)
    · rw [hbc] at h; exact absurd h (by simp)
  · intro a b
    by_cases hab : cmp a b = true
    · right
      simp only [invTaskOrder, Bool.not_eq_true', Bool.not_eq_false]
      by_contra hba
      simp only [Bool.not_eq_false] at hba
      have := htr a b a hab hba
      rw [hirr a] at this
      exact absurd this (by simp)
    · left
      simp only [invTaskOrder, Bool.not_eq_true']
      exact Bool.not_eq_true _ ▸ (by simpa using hab)

/-- C4 amended witness: the complement of the strict weak ordering
`natLtB` is reflexive, transitive and total. -/
theorem victimsQueue_cmp_total_preorder_witness :
    (∀ a, invTaskOrder natLtB a a = true) ∧
    TransB (invTaskOrder natLtB) ∧
    (∀ a b, invTaskOrder natLtB a b = true ∨ invTaskOrder natLtB b a = true) :=
  victimsQueue_cmp_total_preorder natLtB natLtB_irrefl natLtB_trans natLtB_cotrans

/-- C1: in the Phase 1 job loop, the Statement opened for a popped
preemptor job is committed iff the job satisfies the pipelined predicate
when the inner per-task loop ends — the resulting state is the inner
loop's state, and the job is pushed back exactly when a preempt attempt
succeeded; otherwise the Statement is discarded — the state reverts to
the snapshot taken when the Statement was opened and the job is not
pushed back (while the consumed task queue and pop record are not
restored). -/
theorem phase1_commit_iff_pipelined (ssn : Session) (innerFuel : Nat)
    (job : JobInfo) (restQ : List JobInfo) (ls : LoopState) :
    (ssn.jobPipelined job.uid (phase1Inner ssn job innerFuel false ls).2.state = true →
      (phase1Step ssn innerFuel job restQ ls).2.state =
          (phase1Inner ssn job innerFuel false ls).2.state ∧
        (phase1Step ssn innerFuel job restQ ls).1 =
          (if (phase1Inner ssn job innerFuel false ls).1 then job :: restQ
            else restQ)) ∧
    (ssn.jobPipelined job.uid (phase1Inner ssn job innerFuel false ls).2.state = false →
      (phase1Step ssn innerFuel job restQ ls).2.state = ls.state ∧
        (phase1Step ssn innerFuel job restQ ls).1 = restQ ∧
        (phase1Step ssn innerFuel job restQ ls).2.tasks =
          (phase1Inner ssn job innerFuel false ls).2.tasks ∧
        (phase1Step ssn innerFuel job restQ ls).2.popped =
          (phase1Inner ssn job innerFuel false ls).2.popped) := by
  constructor
  · intro h
    unfold phase1Step
    simp [h, closeStmt]
  · intro h
    unfold phase1Step
    simp [h, closeStmt]

/-- The job used in concrete Phase 1 / Phase 2 evaluations. -/
def jobW : JobInfo := ⟨1, 7, false, [taskP]⟩

/-- The loop state used in concrete Phase 1 / Phase 2 evaluations. -/
def lsW : LoopState := ⟨[(1, [taskP])], stOneNode, []⟩

/-- C1 witness: with a never-pipelined job the Statement is discarded —
the scheduler state reverts to the snapshot and the job is not pushed
back. -/
theorem phase1_commit_iff_pipelined_witness :
    (phase1Step (dummySession [] []) 1 jobW [] lsW).2.state = lsW.state ∧
      (phase1Step (dummySession [] []) 1 jobW [] lsW).1 = [] ∧
      (phase1Step (dummySession [] []) 1 jobW [] lsW).2.tasks =
        (phase1Inner (dummySession [] []) jobW 1 false lsW).2.tasks ∧
      (phase1Step (dummySession [] []) 1 jobW [] lsW).2.popped =
        (phase1Inner (dummySession [] []) jobW 1 false lsW).2.popped :=
  (phase1_commit_iff_pipelined (dummySession [] []) 1 jobW [] lsW).2 rfl

/-- C7: in the Phase 2 per-job loop, each per-preemptor Statement is
committed unconditionally: after a pop the resulting state is exactly the
state produced by the preempt attempt even when the attempt failed (in
which case the loop stops), the loop continues only on success, and it
also stops when the job's task queue is missing or empty. -/
theorem phase2_commit_unconditional (ssn : Session) (job : JobInfo)
    (fuel : Nat) (ls : LoopState) :
    (lookupAssoc ls.tasks job.uid = none → phase2Job ssn job (fuel + 1) ls = ls) ∧
    (∀ q, lookupAssoc ls.tasks job.uid = some q →
      (q.isEmpty = true → phase2Job ssn job (fuel + 1) ls = ls) ∧
      (∀ p rest, pqPop ssn.taskOrderFn q = some (p, rest) →
        ((preempt ssn p (intraJobFilter p) ls.state).assigned = false →
          phase2Job ssn job (fuel + 1) ls =
            ⟨setAssoc ls.tasks job.uid rest,
              (preempt ssn p (intraJobFilter p) ls.state).state,
              p :: ls.popped⟩) ∧
        ((preempt ssn p (intraJobFilter p) ls.state).assigned = true →
          phase2Job ssn job (fuel + 1) ls =
            phase2Job ssn job fuel
              ⟨setAssoc ls.tasks job.uid rest,
                (preempt ssn p (intraJobFilter p) ls.state).state,
                p :: ls.popped⟩))) := by
  constructor
  · intro hlk
    unfold phase2Job
    simp [hlk]
  · intro q hlk
    constructor
    · intro hq
      unfold phase2Job
      simp [hlk, hq]
    · intro p rest hpop
      have hq : q.isEmpty = false := by
        cases q with
        | nil => simp [pqPop] at hpop
        | cons a l => rfl
      constructor
      · intro ha
        conv_lhs => unfold phase2Job
        rw [hlk]
        simp [hq, hpop, ha, closeStmt]
      · intro ha
        conv_lhs => unfold phase2Job
        rw [hlk]
        simp [hq, hpop, ha, closeStmt]

/-- C7 witness: with no feasible node the single intra-job attempt fails,
yet the loop state keeps the attempt's resulting state (the commit is a
no-op) and the consumed pop is recorded. -/
theorem phase2_commit_unconditional_witness :
    phase2Job ssnNoFeasible jobW 1 lsW =
      ⟨setAssoc lsW.tasks jobW.uid [],
        (preempt ssnNoFeasible taskP (intraJobFilter taskP) lsW.state).state,
        taskP :: lsW.popped⟩ :=
  ((((phase2_commit_unconditional ssnNoFeasible jobW 0 lsW).2 [taskP]
    (by decide)).2 taskP [] (by decide)).1) (by decide)

theorem attemptNode_true_ops (ssn : Session) (p : TaskInfo)
    (filt : TaskInfo → Bool) (name : Nat) (st : SchedState)
    (h : (attemptNode ssn p filt name st).1 = true) :
    (attemptNode ssn p filt name st).2.ops =
      Op.pipeline p.uid name ::
        (evictLoop ssn p name
          (ssn.preemptable p ((findNode st name).elim [] NodeInfo.tasks |>.filter filt)).length
          (ssn.preemptable p ((findNode st name).elim [] NodeInfo.tasks |>.filter filt))
          st).ops := by
  cases hn : findNode st name with
  | none => simp [attemptNode, hn] at h
  | some node =>
    cases hv : validateVictims p node (ssn.preemptable p (node.tasks.filter filt)) with
    | some e => simp [attemptNode, hn, hv] at h
    | none =>
      cases hn₁ : findNode (evictLoop ssn p name
          (ssn.preemptable p (node.tasks.filter filt)).length
          (ssn.preemptable p (node.tasks.filter filt)) st) name with
      | none => simp [attemptNode, hn, hv, hn₁] at h
      | some node₁ =>
        cases hle : p.initResreq.lessEqual node₁.futureIdle with
        | false => simp [attemptNode, hn, hv, hn₁, hle] at h
        | true =>
          cases hpipe : SchedState.pipeline (evictLoop ssn p name
              (ssn.preemptable p (node.tasks.filter filt)).length
              (ssn.preemptable p (node.tasks.filter filt)) st) p name with
          | none =>
            exfalso
            unfold SchedState.pipeline at hpipe
            rw [hn₁] at hpipe
            simp [hle] at hpipe
          | some st₂ =>
            have h2 : (attemptNode ssn p filt name st).2 = st₂ := by
              simp [attemptNode, hn, hv, hn₁, hle, hpipe]
            rw [h2]
            unfold SchedState.pipeline at hpipe
            rw [hn₁] at hpipe
            simp only [hle, if_true] at hpipe
            obtain rfl := Option.some.inj hpipe
            simp

/-- C6: `preempt` visits the nodes ranked by the candidate pipeline in
order — the visited names are always a front segment of the ranked list;
when no node succeeds every ranked node is visited; and on success the
last visited node is the first success, no further node is tried, and a
Pipeline placement of the preemptor on that node heads the operation
log. -/
theorem preempt_first_fit (ssn : Session) (p : TaskInfo)
    (filt : TaskInfo → Bool) (st : SchedState) :
    (∃ t, rankNodes ssn st p = (preempt ssn p filt st).visited ++ t) ∧
    ((preempt ssn p filt st).assigned = false →
      (preempt ssn p filt st).visited = rankNodes ssn st p) ∧
    ((preempt ssn p filt st).assigned = true →
      ∃ pre final, (preempt ssn p filt st).visited = pre ++ [final] ∧
        (preempt ssn p filt st).state.ops.head? =
          some (Op.pipeline p.uid final)) := by
  have main : ∀ names st₀,
      (∃ t, names = (tryNodes ssn p filt names st₀).visited ++ t) ∧
      ((tryNodes ssn p filt names st₀).assigned = false →
        (tryNodes ssn p filt names st₀).visited = names) ∧
      ((tryNodes ssn p filt names st₀).assigned = true →
        ∃ pre final, (tryNodes ssn p filt names st₀).visited = pre ++ [final] ∧
          (tryNodes ssn p filt names st₀).state.ops.head? =
            some (Op.pipeline p.uid final)) := by
    intro names
    induction names with
    | nil =>
      intro st₀
      refine ⟨⟨[], rfl⟩, fun _ => rfl, fun h => ?_⟩
      simp [tryNodes] at h
    | cons name rest ih =>
      intro st₀
      have ht0 : tryNodes ssn p filt (name :: rest) st₀ =
          (if (attemptNode ssn p filt name st₀).1 then
            ⟨true, (attemptNode ssn p filt name st₀).2, [name]⟩
          else
            ⟨(tryNodes ssn p filt rest (attemptNode ssn p filt name st₀).2).assigned,
              (tryNodes ssn p filt rest (attemptNode ssn p filt name st₀).2).state,
              name :: (tryNodes ssn p filt rest
                (attemptNode ssn p filt name st₀).2).visited⟩) := rfl
      by_cases ha : (attemptNode ssn p filt name st₀).1 = true
      · have ht : tryNodes ssn p filt (name :: rest) st₀ =
            ⟨true, (attemptNode ssn p filt name st₀).2, [name]⟩ := by
          rw [ht0, ha]
          simp
        refine ⟨⟨rest, by rw [ht]; rfl⟩, ?_, ?_⟩
        · rw [ht]
          intro h
          exact absurd h (by simp)
        · intro _
          refine ⟨[], name, by rw [ht]; rfl, ?_⟩
          rw [ht]
          have hops := attemptNode_true_ops ssn p filt name st₀ ha
          show (attemptNode ssn p filt name st₀).2.ops.head? = _
          rw [hops]
          rfl
      · have hf : (attemptNode ssn p filt name st₀).1 = false :=
          Bool.not_eq_true _ ▸ (by simpa using ha)
        have ht : tryNodes ssn p filt (name :: rest) st₀ =
            ⟨(tryNodes ssn p filt rest (attemptNode ssn p filt name st₀).2).assigned,
              (tryNodes ssn p filt rest (attemptNode ssn p filt name st₀).2).state,
              name :: (tryNodes ssn p filt rest
                (attemptNode ssn p filt name st₀).2).visited⟩ := by
          rw [ht0, hf]
          simp
        obtain ⟨⟨t, hpre⟩, hfail, hsucc⟩ := ih (attemptNode ssn p filt name st₀).2
        refine ⟨⟨t, ?_⟩, ?_, ?_⟩
        · rw [ht]
          simpa using hpre
        · rw [ht]
          intro h
          simp only at h
          rw [hfail h]
        · rw [ht]
          intro h
          simp only at h
          obtain ⟨pre, final, hv, hops⟩ := hsucc h
          exact ⟨name :: pre, final, by simp [hv], hops⟩
  have hp : preempt ssn p filt st =
      tryNodes ssn p filt (rankNodes ssn st p) st := rfl
  rw [hp]
  exact main (rankNodes ssn st p) st

/-- C6 witness: with one ranked node on which validation fails, the whole
ranked list is visited and the call fails. -/
theorem preempt_first_fit_witness :
    (preempt (dummySession [] []) taskP (fun _ => true) stEmptyTasks).visited =
      rankNodes (dummySession [] []) stEmptyTasks taskP :=
  (preempt_first_fit (dummySession [] []) taskP (fun _ => true)
    stEmptyTasks).2.1 (by decide)

/-- A node on which the preemptor already fits: one running victim
candidate and two idle units of future-idle. -/
def nodeFits : NodeInfo := ⟨5, [taskV], [2]⟩

/-- A state holding only `nodeFits`. -/
def stFits : SchedState := ⟨[nodeFits], []⟩

/-- C8 counterexample: on `nodeFits` the victim list validates, the
eviction loop stops before issuing any Evict (the preemptor already
fits), so zero Evict calls succeed — yet a Pipeline placement is logged
and the attempt reports success, contradicting the claim that such a node
yields no pipeline placement and is treated as a failure. -/
theorem attempt_zero_evictions_cex :
    validateVictims taskP nodeFits
        ((dummySession [] []).preemptable taskP
          (nodeFits.tasks.filter (fun _ => true))) = none ∧
    (attemptNode (dummySession [] []) taskP (fun _ => true) 5 stFits).1 = true ∧
    (attemptNode (dummySession [] []) taskP (fun _ => true) 5 stFits).2.ops =
      [Op.pipeline 1 5] := by
  decide

/-- C8 amended: for a node attempt whose victim list passes validation
but whose eviction loop changes nothing (zero Evict calls succeed), the
outcome is decided by whether the preemptor already fit the node's
future-idle at the start of the attempt: if it did not fit, no Pipeline
is logged, the attempt fails with the state unchanged and the next ranked
node is tried; if it already fit, the attempt succeeds and logs a
Pipeline placement with zero evictions. -/
theorem attempt_zero_evictions_amended (ssn : Session) (p : TaskInfo)
    (filt : TaskInfo → Bool) (name : Nat) (st : SchedState) (node : NodeInfo)
    (hn : findNode st name = some node)
    (hv : validateVictims p node (ssn.preemptable p (node.tasks.filter filt)) = none)
    (hz : evictLoop ssn p name (ssn.preemptable p (node.tasks.filter filt)).length
        (ssn.preemptable p (node.tasks.filter filt)) st = st) :
    (p.initResreq.lessEqual node.futureIdle = false →
      attemptNode ssn p filt name st = (false, st)) ∧
    (p.initResreq.lessEqual node.futureIdle = true →
      (attemptNode ssn p filt name st).1 = true ∧
      (attemptNode ssn p filt name st).2.ops =
        Op.pipeline p.uid name :: st.ops) := by
  constructor
  · intro hle
    simp [attemptNode, hn, hv, hz, hle]
  · intro hle
    have hpipe : SchedState.pipeline st p name =
        some { nodes := updateNodes name
                 (fun n => { n with futureIdle := n.futureIdle.sub p.initResreq }) st.nodes,
               ops := Op.pipeline p.uid name :: st.ops } := by
      unfold SchedState.pipeline
      rw [hn]
      simp [hle]
    constructor
    · simp [attemptNode, hn, hv, hz, hle, hpipe]
    · simp [attemptNode, hn, hv, hz, hle, hpipe]

/-- A running task whose eviction is bound to fail: it names a node that
does not exist (a transient state change). -/
def taskGhost : TaskInfo := ⟨9, 2, 99, TaskStatus.Running, [5], [5]⟩

/-- A session whose victim-selection policy returns the ghost task. -/
def ssnGhost : Session :=
  { dummySession [] [] with preemptable := fun _ _ => [taskGhost] }

/-- A node with no idle capacity and one running candidate. -/
def nodeTight : NodeInfo := ⟨5, [taskV], [0]⟩

/-- A state holding only `nodeTight`. -/
def stTight : SchedState := ⟨[nodeTight], []⟩

/-- C8 amended witness: the ghost victim validates but its eviction
fails, so zero Evict calls succeed, the preemptor does not fit, and the
attempt fails with the state unchanged. -/
theorem attempt_zero_evictions_amended_witness :
    attemptNode ssnGhost taskP (fun _ => true) 5 stTight = (false, stTight) :=
  (attempt_zero_evictions_amended ssnGhost taskP (fun _ => true) 5 stTight
    nodeTight (by decide) (by decide) (by decide)).1 (by decide)

theorem pqPop_perm {α : Type} (cmp : α → α → Bool) :
    ∀ (l rest : List α) (x : α), pqPop cmp l = some (x, rest) → l.Perm (x :: rest) := by
  intro l
  induction l with
  | nil =>
    intro rest x h
    simp [pqPop] at h
  | cons y ys ih =>
    intro rest x h
    cases hys : pqPop cmp ys with
    | none =>
      have heq : pqPop cmp (y :: ys) = some (y, []) := by
        unfold pqPop
        rw [hys]
      rw [heq] at h
      simp only [Option.some.injEq, Prod.mk.injEq] at h
      obtain ⟨rfl, rfl⟩ := h
      have hnil : ys = [] := by
        cases ys with
        | nil => rfl
        | cons z zs =>
          exfalso
          cases hzz : pqPop cmp zs with
          | none =>
            have hz : pqPop cmp (z :: zs) = some (z, []) := by
              unfold pqPop
              rw [hzz]
            rw [hz] at hys
            exact Option.noConfusion hys
          | some mr =>
            obtain ⟨m, r⟩ := mr
            have hz : pqPop cmp (z :: zs) =
                if cmp m z then some (m, z :: r) else some (z, zs) := by
              unfold pqPop
              rw [hzz]
            rw [hz] at hys
            by_cases hc : cmp m z = true
            · rw [if_pos hc] at hys
              exact Option.noConfusion hys
            · rw [if_neg hc] at hys
              exact Option.noConfusion hys
      subst hnil
      exact List.Perm.refl _
    | some mr =>
      obtain ⟨m, r⟩ := mr
      have heq : pqPop cmp (y :: ys) =
          if cmp m y then some (m, y :: r) else some (y, ys) := by
        unfold pqPop
        rw [hys]
      rw [heq] at h
      by_cases hc : cmp m y = true
      · rw [if_pos hc] at h
        simp only [Option.some.injEq, Prod.mk.injEq] at h
        obtain ⟨rfl, rfl⟩ := h
        exact (List.Perm.cons y (ih _ _ hys)).trans (List.Perm.swap _ _ _)
      · rw [if_neg hc] at h
        simp only [Option.some.injEq, Prod.mk.injEq] at h
        obtain ⟨rfl, rfl⟩ := h
        exact List.Perm.refl _

/-- All pending tasks currently stored in the per-job task queues. -/
def flatTasks (m : List (Nat × List TaskInfo)) : List TaskInfo :=
  m.foldr (fun p acc => p.2 ++ acc) []

theorem flatTasks_pop (cmp : TaskInfo → TaskInfo → Bool) :
    ∀ (m : List (Nat × List TaskInfo)) (k : Nat) (q rest : List TaskInfo)
      (x : TaskInfo), lookupAssoc m k = some q → pqPop cmp q = some (x, rest) →
      (flatTasks m).Perm (x :: flatTasks (setAssoc m k rest)) := by
  intro m
  induction m with
  | nil =>
    intro k q rest x hl _
    simp [lookupAssoc] at hl
  | cons e t ih =>
    intro k q rest x hl hp
    obtain ⟨k', q'⟩ := e
    by_cases hk : k' = k
    · subst hk
      unfold lookupAssoc at hl
      rw [if_pos rfl] at hl
      obtain rfl := Option.some.inj hl
      show (q' ++ flatTasks t).Perm (x :: flatTasks (setAssoc ((k', q') :: t) k' rest))
      have hset : setAssoc ((k', q') :: t) k' rest = (k', rest) :: t := by
        conv_lhs => unfold setAssoc
        rw [if_pos rfl]
      rw [hset]
      exact (pqPop_perm cmp q' rest x hp).append_right (flatTasks t)
    · unfold lookupAssoc at hl
      rw [if_neg hk] at hl
      have hset : setAssoc ((k', q') :: t) k rest = (k', q') :: setAssoc t k rest := by
        conv_lhs => unfold setAssoc
        rw [if_neg hk]
      show (q' ++ flatTasks t).Perm (x :: flatTasks (setAssoc ((k', q') :: t) k rest))
      rw [hset]
      show (q' ++ flatTasks t).Perm (x :: (q' ++ flatTasks (setAssoc t k rest)))
      exact ((ih k q rest x hl hp).append_left q').trans List.perm_middle

/-- The tasks accounted for by a loop state: those already popped plus
those still waiting in the per-job task queues. -/
def bag (ls : LoopState) : List TaskInfo :=
  ls.popped ++ flatTasks ls.tasks

theorem bag_pop_step (cmp : TaskInfo → TaskInfo → Bool)
    {tasks : List (Nat × List TaskInfo)} {k : Nat} {q rest : List TaskInfo}
    {x : TaskInfo} (popped : List TaskInfo) (st : SchedState)
    (hl : lookupAssoc tasks k = some q) (hp : pqPop cmp q = some (x, rest)) :
    (bag ⟨setAssoc tasks k rest, st, x :: popped⟩).Perm
      (bag ⟨tasks, st, popped⟩) := by
  show ((x :: popped) ++ flatTasks (setAssoc tasks k rest)).Perm
    (popped ++ flatTasks tasks)
  have h1 : (popped ++ flatTasks tasks).Perm
      (popped ++ (x :: flatTasks (setAssoc tasks k rest))) :=
    (flatTasks_pop cmp tasks k q rest x hl hp).append_left popped
  exact (h1.trans List.perm_middle).symm

theorem phase1Inner_bag (ssn : Session) (job : JobInfo) :
    ∀ (fuel : Nat) (assigned : Bool) (ls : LoopState),
      (bag (phase1Inner ssn job fuel assigned ls).2).Perm (bag ls) := by
  intro fuel
  induction fuel with
  | zero =>
    intro assigned ls
    exact List.Perm.refl _
  | succ n ih =>
    intro assigned ls
    cases hpl : ssn.jobPipelined job.uid ls.state with
    | true =>
      have hstep : phase1Inner ssn job (n + 1) assigned ls = (assigned, ls) := by
        conv_lhs => unfold phase1Inner
        simp [hpl]
      rw [hstep]
    | false =>
      cases hlk : lookupAssoc ls.tasks job.uid with
      | none =>
        have hstep : phase1Inner ssn job (n + 1) assigned ls = (assigned, ls) := by
          conv_lhs => unfold phase1Inner
          simp [hpl, hlk]
        rw [hstep]
      | some q =>
        cases hq : q.isEmpty with
        | true =>
          have hstep : phase1Inner ssn job (n + 1) assigned ls = (assigned, ls) := by
            conv_lhs => unfold phase1Inner
            simp [hpl, hlk, hq]
          rw [hstep]
        | false =>
          cases hpop : pqPop ssn.taskOrderFn q with
          | none =>
            have hstep : phase1Inner ssn job (n + 1) assigned ls = (assigned, ls) := by
              conv_lhs => unfold phase1Inner
              simp [hpl, hlk, hq, hpop]
            rw [hstep]
          | some pr =>
            obtain ⟨p, rest⟩ := pr
            have hstep : phase1Inner ssn job (n + 1) assigned ls =
                phase1Inner ssn job n
                  (assigned || (preempt ssn p (crossJobFilter ssn job p) ls.state).assigned)
                  ⟨setAssoc ls.tasks job.uid rest,
                    (preempt ssn p (crossJobFilter ssn job p) ls.state).state,
                    p :: ls.popped⟩ := by
              conv_lhs => unfold phase1Inner
              simp [hpl, hlk, hq, hpop]
            rw [hstep]
            refine (ih _ _).trans ?_
            exact bag_pop_step ssn.taskOrderFn ls.popped
              (preempt ssn p (crossJobFilter ssn job p) ls.state).state hlk hpop

theorem phase1Step_bag (ssn : Session) (innerFuel : Nat) (job : JobInfo)
    (restQ : List JobInfo) (ls : LoopState) :
    (bag (phase1Step ssn innerFuel job restQ ls).2).Perm (bag ls) := by
  unfold phase1Step
  cases h : ssn.jobPipelined job.uid (phase1Inner ssn job innerFuel false ls).2.state with
  | true =>
    simp only [h, if_true]
    exact phase1Inner_bag ssn job innerFuel false ls
  | false =>
    simp only [h, Bool.false_eq_true, if_false]
    exact phase1Inner_bag ssn job innerFuel false ls

theorem phase1_bag (ssn : Session) (innerFuel : Nat) :
    ∀ (fuel : Nat) (jobQ : List JobInfo) (ls : LoopState),
      (bag (phase1 ssn innerFuel fuel jobQ ls).2).Perm (bag ls) := by
  intro fuel
  induction fuel with
  | zero =>
    intro jobQ ls
    exact List.Perm.refl _
  | succ n ih =>
    intro jobQ ls
    cases hq : jobQ.isEmpty with
    | true =>
      have hstep : phase1 ssn innerFuel (n + 1) jobQ ls = (jobQ, ls) := by
        conv_lhs => unfold phase1
        simp [hq]
      rw [hstep]
    | false =>
      cases hpop : pqPop ssn.jobOrderFn jobQ with
      | none =>
        have hstep : phase1 ssn innerFuel (n + 1) jobQ ls = (jobQ, ls) := by
          conv_lhs => unfold phase1
          simp [hq, hpop]
        rw [hstep]
      | some pr =>
        obtain ⟨job, restQ⟩ := pr
        have hstep : phase1 ssn innerFuel (n + 1) jobQ ls =
            phase1 ssn innerFuel n (phase1Step ssn innerFuel job restQ ls).1
              (phase1Step ssn innerFuel job restQ ls).2 := by
          conv_lhs => unfold phase1
          simp [hq, hpop]
        rw [hstep]
        exact (ih _ _).trans (phase1Step_bag ssn innerFuel job restQ ls)

theorem phase2Job_bag (ssn : Session) (job : JobInfo) :
    ∀ (fuel : Nat) (ls : LoopState),
      (bag (phase2Job ssn job fuel ls)).Perm (bag ls) := by
  intro fuel
  induction fuel with
  | zero =>
    intro ls
    exact List.Perm.refl _
  | succ n ih =>
    intro ls
    cases hlk : lookupAssoc ls.tasks job.uid with
    | none =>
      have hstep : phase2Job ssn job (n + 1) ls = ls := by
        conv_lhs => unfold phase2Job
        simp [hlk]
      rw [hstep]
    | some q =>
      cases hq : q.isEmpty with
      | true =>
        have hstep : phase2Job ssn job (n + 1) ls = ls := by
          conv_lhs => unfold phase2Job
          simp [hlk, hq]
        rw [hstep]
      | false =>
        cases hpop : pqPop ssn.taskOrderFn q with
        | none =>
          have hstep : phase2Job ssn job (n + 1) ls = ls := by
            conv_lhs => unfold phase2Job
            simp [hlk, hq, hpop]
          rw [hstep]
        | some pr =>
          obtain ⟨p, rest⟩ := pr
          cases ha : (preempt ssn p (intraJobFilter p) ls.state).assigned with
          | true =>
            have hstep : phase2Job ssn job (n + 1) ls =
                phase2Job ssn job n
                  ⟨setAssoc ls.tasks job.uid rest,
                    closeStmt StmtEnd.commit ls.state
                      (preempt ssn p (intraJobFilter p) ls.state).state,
                    p :: ls.popped⟩ := by
              conv_lhs => unfold phase2Job
              simp [hlk, hq, hpop, ha]
            rw [hstep]
            refine (ih _).trans ?_
            exact bag_pop_step ssn.taskOrderFn ls.popped _ hlk hpop
          | false =>
            have hstep : phase2Job ssn job (n + 1) ls =
                ⟨setAssoc ls.tasks job.uid rest,
                  closeStmt StmtEnd.commit ls.state
                    (preempt ssn p (intraJobFilter p) ls.state).state,
                  p :: ls.popped⟩ := by
              conv_lhs => unfold phase2Job
              simp [hlk, hq, hpop, ha]
            rw [hstep]
            exact bag_pop_step ssn.taskOrderFn ls.popped _ hlk hpop

theorem phase2_bag (ssn : Session) (fuel : Nat) :
    ∀ (jobs : List JobInfo) (ls : LoopState),
      (bag (phase2 ssn fuel jobs ls)).Perm (bag ls) := by
  intro jobs
  induction jobs with
  | nil =>
    intro ls
    exact List.Perm.refl _
  | cons j t ih =>
    intro ls
    have hstep : phase2 ssn fuel (j :: t) ls =
        phase2 ssn fuel t (phase2Job ssn j fuel ls) := rfl
    rw [hstep]
    exact (ih _).trans (phase2Job_bag ssn j fuel ls)

theorem executeQueues_bag (ssn : Session) (fuel : Nat) (underRequest : List JobInfo) :
    ∀ (qs : List Nat) (pmap : List (Nat × List JobInfo)) (ls : LoopState),
      (bag (executeQueues ssn fuel underRequest qs pmap ls)).Perm (bag ls) := by
  intro qs
  induction qs with
  | nil =>
    intro pmap ls
    exact List.Perm.refl _
  | cons q t ih =>
    intro pmap ls
    have hstep : executeQueues ssn fuel underRequest (q :: t) pmap ls =
        executeQueues ssn fuel underRequest t
          (setAssoc pmap q
            (phase1 ssn fuel fuel ((lookupAssoc pmap q).getD []) ls).1)
          (phase2 ssn fuel underRequest
            (phase1 ssn fuel fuel ((lookupAssoc pmap q).getD []) ls).2) := rfl
    rw [hstep]
    exact ((ih _ _).trans (phase2_bag ssn fuel underRequest _)).trans
      (phase1_bag ssn fuel fuel _ ls)

/-- C10: over a whole Execute call — Phase 1 over every queue and every
per-queue run of Phase 2 share the per-job task queues, pops only remove
tasks, and a discarded Statement does not restore them — so when the
initially collected pending tasks are pairwise distinct, the sequence of
popped preemptor tasks contains no task twice. -/
theorem execute_pops_each_task_once (ssn : Session) (fuel : Nat)
    (st : SchedState)
    (h : ((flatTasks (collect ssn st).preemptorTasks).map TaskInfo.uid).Nodup) :
    (((executeAction ssn fuel st).popped).map TaskInfo.uid).Nodup := by
  have hb : (bag (executeAction ssn fuel st)).Perm
      (bag ⟨(collect ssn st).preemptorTasks, st, []⟩) :=
    executeQueues_bag ssn fuel (collect ssn st).underRequest
      (collect ssn st).queueIds (collect ssn st).preemptorsMap
      ⟨(collect ssn st).preemptorTasks, st, []⟩
  have h2 : ((bag (executeAction ssn fuel st)).map TaskInfo.uid).Nodup := by
    refine (hb.map TaskInfo.uid).nodup_iff.mpr ?_
    simpa [bag] using h
  have hsub : ((executeAction ssn fuel st).popped.map TaskInfo.uid).Sublist
      ((bag (executeAction ssn fuel st)).map TaskInfo.uid) :=
    (List.sublist_append_left _ _).map TaskInfo.uid
  exact List.Nodup.sublist hsub h2

/-- The session used for the whole-Execute concrete evaluation: one job
in queue 7 with a single pending task. -/
def ssnExec : Session := dummySession [jobW] [7]

/-- C10 witness: on a concrete one-job snapshot the popped task sequence
of a whole Execute run has no duplicates. -/
theorem execute_pops_each_task_once_witness :
    (((executeAction ssnExec 2 ⟨[], []⟩).popped).map TaskInfo.uid).Nodup :=
  execute_pops_each_task_once ssnExec 2 ⟨[], []⟩ (by decide)

end Volcano
